import Mathlib

/-!
Shallow embedding of the offline-first synchronization engine and resource
cache layer of the Offline-Location-PWA repository.

The authoritative sources are:
* `src/src/hooks/useIndexedDB.ts` (final variant): `addName`,
  `fetchAndMergeRemoteRecords`, `syncSingleRecord`, `syncPendingData`,
  `deleteRecord`;
* `src/src/hooks/useSupabaseSync.ts`: `migrateLocalRecords`;
* `src/dist/sw.js`: `handleFetch`, `cacheFirst`, `networkFirstWithTimeout`,
  `staleWhileRevalidate`.

Modelling conventions:
* JS strings are Lean `String`s (`List Char` where code-point access matters);
* JS numbers that hold coordinates/accuracy are modelled as `ℚ` (the reachable
  values are finite decimals; `NaN` never arises in the modelled flows);
* `undefined` / `null` fields are `Option`;
* the IndexedDB object store `names` (keyPath `id`, autoIncrement) is a list of
  records plus the next auto-increment key;
* network effects are oracles passed in as functions; the remote inserts a run
  performs are accumulated in an explicit list so that "no remote call was
  issued" is expressible;
* cache writes performed by the service-worker strategies (`cache.put`) are not
  modelled: no claim depends on cache contents after a request, only on which
  response is returned and which network fetches are issued.
-/

namespace PWA

/-- JS truthiness of an optional numeric field (`undefined`, `null` and `0`
are falsy; `NaN` does not arise in the modelled flows). -/
def jsTruthyNum (q : Option ℚ) : Bool :=
  match q with
  | none => false
  | some v => !(decide (v = 0))

/-- JS truthiness of the optional IndexedDB key `record.id`
(`undefined` and `0` are falsy; autoIncrement keys start at 1). -/
def jsTruthyId (i : Option Nat) : Bool :=
  match i with
  | none => false
  | some n => !(decide (n = 0))

/-- JS or-default of an optional string field against the literal `en`
(`undefined`, `null` and the empty string are falsy). -/
def jsOrEn (s : Option String) : String :=
  match s with
  | none => ("en")
  | some v => if v = "" then ("en") else v

/-- The JS whitespace set used by `String.prototype.trim` (WhiteSpace and
LineTerminator code points). -/
def jsWhitespace (c : Char) : Bool :=
  c.toNat = 0x9 || c.toNat = 0xA || c.toNat = 0xB || c.toNat = 0xC ||
  c.toNat = 0xD || c.toNat = 0x20 || c.toNat = 0xA0 || c.toNat = 0x1680 ||
  (0x2000 ≤ c.toNat && c.toNat ≤ 0x200A) || c.toNat = 0x2028 ||
  c.toNat = 0x2029 || c.toNat = 0x202F || c.toNat = 0x205F ||
  c.toNat = 0x3000 || c.toNat = 0xFEFF

/-- Model of `name.trim()`: drop leading and trailing JS whitespace. -/
def jsTrim (s : List Char) : List Char :=
  ((s.dropWhile jsWhitespace).reverse.dropWhile jsWhitespace).reverse

/-- Membership of a code point in the Devanagari block, the test performed by
the regex `[ऀ-ॿ]` of `detectLanguage` in `addName`
(`useIndexedDB.ts`). -/
def isDevanagari (c : Char) : Bool :=
  0x900 ≤ c.toNat && c.toNat ≤ 0x97F

/-- Model of `detectLanguage` from `addName` (`useIndexedDB.ts`): the tag `hi`
when the regex `[ऀ-ॿ]` matches the text, the tag `en` otherwise. -/
def detectLanguage (text : List Char) : String :=
  if text.any isDevanagari then ("hi") else ("en")

/-- The optional location triple of a local record. -/
structure Location where
  latitude : ℚ
  longitude : ℚ
  accuracy : ℚ
deriving Repr, DecidableEq

/-- The `NameEntry` interface of `useIndexedDB.ts` (final variant). -/
structure NameEntry where
  id : Option Nat
  supabaseId : Option String
  name : List Char
  language : Option String
  location : Option Location
  timestamp : Int
  synced : Bool
deriving Repr, DecidableEq

/-- The IndexedDB object store `names` (keyPath `id`, autoIncrement):
the stored records plus the next auto-increment key. -/
structure LocalStore where
  nextId : Nat
  records : List NameEntry
deriving Repr, DecidableEq

/-- IndexedDB `store.add` on an object without a key: the auto-increment key
is injected into the `id` property of the stored object. -/
def LocalStore.addRecord (s : LocalStore) (e : NameEntry) : LocalStore :=
  { nextId := s.nextId + 1
    records := s.records ++ [{ e with id := some s.nextId }] }

/-- IndexedDB `store.put` on an object carrying a key: replace the record
with that key if present, otherwise insert. -/
def putRecord (l : List NameEntry) (e : NameEntry) : List NameEntry :=
  if l.any (fun r => r.id == e.id) then
    l.map (fun r => if r.id == e.id then e else r)
  else l ++ [e]

/-- Model of `deleteRecord` from `useIndexedDB.ts` lines 523-543, restricted to its
effect on the `names` object store: `store.delete(id)` removes the record
with key `id` unconditionally — there is no tombstone branch anywhere in the
function. -/
def deleteRecord (s : LocalStore) (i : Nat) : LocalStore :=
  { s with records := s.records.filter (fun e => !(e.id == some i)) }

/-- A row of the `onboarding_records` Supabase table as received by
`fetchAndMergeRemoteRecords` (`id` is the uuid primary key; `timestamp` is
modelled as the epoch instant the ISO string denotes). -/
structure RemoteRecord where
  id : String
  name : List Char
  language : Option String
  latitude : Option ℚ
  longitude : Option ℚ
  location_accuracy : Option ℚ
  timestamp : Int
deriving Repr, DecidableEq

/-- The remote-to-local conversion inside `fetchAndMergeRemoteRecords`
(`useIndexedDB.ts` lines 354-366): the location is kept only when
`remoteRecord.latitude && remoteRecord.longitude` is truthy, and
`accuracy` is `parseFloat` of `location_accuracy` defaulted to the string 0. -/
def remoteToLocal (r : RemoteRecord) : NameEntry :=
  { id := none
    supabaseId := some r.id
    name := r.name
    language := some (jsOrEn r.language)
    location :=
      if jsTruthyNum r.latitude && jsTruthyNum r.longitude then
        some { latitude := r.latitude.getD 0
               longitude := r.longitude.getD 0
               accuracy := r.location_accuracy.getD 0 }
      else none
    timestamp := r.timestamp
    synced := true }

/-- The keys of the `localRecordMap` built by `fetchAndMergeRemoteRecords`
(lines 336-342): the `supabaseId`s of the local records, guarded by JS
truthiness (`if (record.supabaseId)` — the empty string is falsy). -/
def localRemoteIds (s : LocalStore) : List String :=
  s.records.filterMap fun e =>
    match e.supabaseId with
    | none => none
    | some x => if x = "" then none else some x

/-- The store mutation performed by `fetchAndMergeRemoteRecords`
(`useIndexedDB.ts` lines 336-392): skip every remote record whose id is a key
of the `localRecordMap` built before any insertion, convert the rest with
`remoteToLocal`, and `store.add` them in order. -/
def mergeRemoteRecords (s : LocalStore) (remotes : List RemoteRecord) : LocalStore :=
  let present := localRemoteIds s
  let toAdd := (remotes.filter fun r => !(present.contains r.id)).map remoteToLocal
  toAdd.foldl LocalStore.addRecord s

/-- Number of records of the store holding a given remote identifier. -/
def countRemote (s : LocalStore) (rid : String) : Nat :=
  s.records.countP fun e => e.supabaseId == some rid

/-- The record constructed by `addName` (`useIndexedDB.ts` lines 404-418)
before `store.add` assigns its key: trimmed name, detected language, the
optional captured location, creation instant, `synced: false`. -/
def addNameEntry (name : List Char) (location : Option Location) (now : Int) : NameEntry :=
  { id := none
    supabaseId := none
    name := jsTrim name
    language := some (detectLanguage (jsTrim name))
    location := location
    timestamp := now
    synced := false }

/-- The payload shape sent to Supabase by `syncSingleRecord` and
`migrateLocalRecords` (an `OnboardingRecord` without `id`, `created_at`,
`updated_at`; `timestamp` modelled as the instant the ISO string denotes). -/
structure SupabaseRecord where
  name : List Char
  language : String
  latitude : Option ℚ
  longitude : Option ℚ
  location_accuracy : Option ℚ
  timestamp : Int
  synced : Bool
deriving Repr, DecidableEq

/-- The conversion of a local record to the Supabase payload, shared by
`syncSingleRecord` (`useIndexedDB.ts` lines 452-460) and
`migrateLocalRecords` (`useSupabaseSync.ts` lines 112-120). -/
def toSupabase (r : NameEntry) : SupabaseRecord :=
  { name := r.name
    language := jsOrEn r.language
    latitude := r.location.map Location.latitude
    longitude := r.location.map Location.longitude
    location_accuracy := r.location.map Location.accuracy
    timestamp := r.timestamp
    synced := true }

/-- The environment a sync run executes in: connectivity and the outcome of
each single-record Supabase insert (`some id` = success with the assigned
uuid, `none` = error). -/
structure SyncEnv where
  online : Bool
  insert : NameEntry → Option String

/-- The mutable state `syncSingleRecord` / `syncPendingData` act on: the
IndexedDB store, the in-memory `names` view, the `isSyncing` flag, and the
accumulated list of remote insert payloads actually issued. -/
structure AppState where
  store : LocalStore
  names : List NameEntry
  isSyncing : Bool
  remoteInserts : List NameEntry
deriving Repr, DecidableEq

/-- Model of `syncSingleRecord` (`useIndexedDB.ts` lines 448-488): bail out when
offline or already synced; otherwise issue the insert; on success with a
truthy `record.id`, `put` the updated record (`synced: true`,
`supabaseId: data.id`) and update the view. -/
def syncSingleRecord (env : SyncEnv) (st : AppState) (record : NameEntry) : AppState :=
  if !env.online || record.synced then st
  else
    match env.insert record with
    | none => { st with remoteInserts := st.remoteInserts ++ [record] }
    | some rid =>
      if jsTruthyId record.id then
        let updated : NameEntry :=
          { record with synced := true, supabaseId := some rid }
        { st with
          store := { st.store with records := putRecord st.store.records updated }
          names := st.names.map fun item => if item.id == record.id then updated else item
          remoteInserts := st.remoteInserts ++ [record] }
      else { st with remoteInserts := st.remoteInserts ++ [record] }

/-- Model of `syncPendingData` (`useIndexedDB.ts` lines 490-521): guarded by the
`isSyncing` flag and connectivity; snapshots the unsynced records, syncs each
in sequence via `syncSingleRecord`, then clears the flag. -/
def syncPendingData (env : SyncEnv) (st : AppState) : AppState :=
  if st.isSyncing || !env.online then st
  else
    let started := { st with isSyncing := true }
    let unsynced := st.store.records.filter fun r => !r.synced
    let finished := unsynced.foldl (syncSingleRecord env) started
    { finished with isSyncing := false }

/-- The batch slicing of `migrateLocalRecords` (`useSupabaseSync.ts` lines
126-127): `records.slice(i, i + size)` for `i = 0, size, 2*size, ...`. -/
def chunksOf (size : Nat) : List α → List (List α)
  | [] => []
  | x :: xs => ((x :: xs).take size) :: chunksOf size (xs.drop (size - 1))
termination_by l => l.length
decreasing_by
  simp only [List.length_cons, List.length_drop]
  exact Nat.lt_succ_of_le (Nat.sub_le _ _)

/-- Model of `migrateLocalRecords` (`useSupabaseSync.ts` lines 102-151): convert the
local records, insert them in batches of 50, count successes, and never abort
on a failed batch. Returns the success count and the list of batches
attempted, in order. -/
def migrateLocalRecords (insertBatch : List SupabaseRecord → Bool)
    (localRecords : List NameEntry) : Nat × List (List SupabaseRecord) :=
  let supabaseRecords := localRecords.map toSupabase
  let batches := chunksOf 50 supabaseRecords
  batches.foldl
    (fun acc b => (if insertBatch b then acc.1 + b.length else acc.1, acc.2 ++ [b]))
    (0, [])

/-! ### Service worker (`src/dist/sw.js`) -/

/-- Constant `CRITICAL_RESOURCES` from `sw.js` lines 6-13. -/
def CRITICAL_RESOURCES : List String :=
  ["/", "/index.html", "/src/main.tsx", "/src/App.tsx", "/src/index.css",
   "/manifest.json"]

/-- JS `String.prototype.endsWith` over BMP strings. -/
def jsEndsWith (s suffix : String) : Bool :=
  suffix.toList.isSuffixOf s.toList

/-- JS `String.prototype.startsWith` over BMP strings. -/
def jsStartsWith (s pre : String) : Bool :=
  pre.toList.isPrefixOf s.toList

/-- JS `String.prototype.includes` over BMP strings. -/
def jsIncludes (s sub : String) : Bool :=
  s.toList.tails.any fun t => sub.toList.isPrefixOf t

/-- The critical-resource test of `handleFetch` (`sw.js` line 99):
`CRITICAL_RESOURCES.some(r => url.pathname === r || url.pathname.endsWith(r))`. -/
def isCritical (path : String) : Bool :=
  CRITICAL_RESOURCES.any fun r => path == r || jsEndsWith path r

/-- An intercepted request: pathname, method, URL scheme and whether it is a
page navigation. -/
structure SWRequest where
  path : String
  methodGET : Bool
  protocol : String
  navigate : Bool
deriving Repr, DecidableEq

/-- The fetch environment of one request: the cache lookup
(`caches.match`, keyed here by pathname) and the network
(`none` = rejected fetch, which for the network-first strategy also covers
the 3000 ms timeout abort). -/
structure FetchEnv where
  cache : String → Option String
  network : String → Option String

/-- What the service worker answers: a concrete response body, or the
synthesized offline notice page of the last-resort fallback. -/
inductive SWResponse where
  | body (s : String)
  | offlineNotice
deriving Repr, DecidableEq

/-- A strategy outcome: the response (`none` = the strategy threw) and the
pathnames it issued network fetches for. -/
abbrev StrategyResult := Option String × List String

/-- Model of `cacheFirst` (`sw.js` lines 161-178): serve the cached response when
present — issuing no fetch — otherwise fetch and return the network
response, propagating failure. -/
def cacheFirst (env : FetchEnv) (path : String) : StrategyResult :=
  match env.cache path with
  | some cached => (some cached, [])
  | none =>
    match env.network path with
    | some resp => (some resp, [path])
    | none => (none, [path])

/-- Model of `networkFirstWithTimeout` (`sw.js` lines 181-206): try the network (with
abort timeout, folded into the oracle); on failure fall back to the cache;
with no cached copy, rethrow. -/
def networkFirstWithTimeout (env : FetchEnv) (path : String) : StrategyResult :=
  match env.network path with
  | some resp => (some resp, [path])
  | none =>
    match env.cache path with
    | some cached => (some cached, [path])
    | none => (none, [path])

/-- Model of `staleWhileRevalidate` (`sw.js` lines 209-238): the background fetch is
started unconditionally; a cached copy is returned immediately when present,
otherwise the network response is awaited, failing when it fails. -/
def staleWhileRevalidate (env : FetchEnv) (path : String) : StrategyResult :=
  match env.cache path with
  | some cached => (some cached, [path])
  | none =>
    match env.network path with
    | some resp => (some resp, [path])
    | none => (none, [path])

/-- Model of `handleFetch` (`sw.js` lines 94-159): route to a strategy by path, and on
a thrown strategy run the fallback chain (any cached match, then the cached
app shell for navigations, then the synthesized offline page). -/
def handleFetch (env : FetchEnv) (req : SWRequest) : SWResponse × List String :=
  let routed : StrategyResult :=
    if isCritical req.path then cacheFirst env req.path
    else if jsStartsWith req.path ("/api/") || jsIncludes req.path ("sync") then
      networkFirstWithTimeout env req.path
    else staleWhileRevalidate env req.path
  match routed with
  | (some resp, calls) => (SWResponse.body resp, calls)
  | (none, calls) =>
    match env.cache req.path with
    | some cached => (SWResponse.body cached, calls)
    | none =>
      if req.navigate then
        match env.cache "/" with
        | some shell => (SWResponse.body shell, calls)
        | none => (SWResponse.offlineNotice, calls)
      else (SWResponse.offlineNotice, calls)

/-- The fetch listener guard (`sw.js` lines 82-92): non-GET and
`chrome-extension:` requests pass through untouched (`none`); the rest are
answered by `handleFetch`. -/
def onFetch (env : FetchEnv) (req : SWRequest) : Option (SWResponse × List String) :=
  if req.methodGET && !(req.protocol == "chrome-extension:") then
    some (handleFetch env req)
  else none

/-! ### Lemmas about the pull-and-merge operation -/

theorem countRemote_addRecord (s : LocalStore) (e : NameEntry) (rid : String) :
    countRemote (s.addRecord e) rid =
      countRemote s rid + (if e.supabaseId == some rid then 1 else 0) := by
  simp only [countRemote, LocalStore.addRecord, List.countP_append, List.countP_cons,
    List.countP_nil, Nat.zero_add]

theorem countRemote_fold_add (rid : String) :
    ∀ (l : List NameEntry) (s : LocalStore),
      countRemote (l.foldl LocalStore.addRecord s) rid =
        countRemote s rid + l.countP (fun e => e.supabaseId == some rid) := by
  intro l
  induction l with
  | nil => intro s; simp
  | cons e t ih =>
    intro s
    simp only [List.foldl_cons, ih, countRemote_addRecord, List.countP_cons]
    omega

theorem mem_localRemoteIds (s : LocalStore) (rid : String) :
    rid ∈ localRemoteIds s ↔ (∃ e ∈ s.records, e.supabaseId = some rid) ∧ rid ≠ "" := by
  simp only [localRemoteIds, List.mem_filterMap]
  constructor
  · rintro ⟨e, he, hf⟩
    cases hs : e.supabaseId with
    | none => simp [hs] at hf
    | some x =>
      simp only [hs] at hf
      split at hf
      · simp at hf
      · rename_i hxne
        have hxr : x = rid := Option.some.inj hf
        subst hxr
        exact ⟨⟨e, he, hs⟩, hxne⟩
  · rintro ⟨⟨e, he, hs⟩, hne⟩
    refine ⟨e, he, ?_⟩
    simp [hs, hne]

theorem contains_iff_mem (l : List String) (a : String) :
    l.contains a = true ↔ a ∈ l := by
  simp [List.contains]

theorem countRemote_pos_iff (s : LocalStore) (rid : String) (hne : rid ≠ "") :
    0 < countRemote s rid ↔ rid ∈ localRemoteIds s := by
  rw [countRemote, List.countP_pos_iff, mem_localRemoteIds]
  simp only [beq_iff_eq]
  constructor
  · rintro ⟨e, he, hp⟩
    exact ⟨⟨e, he, hp⟩, hne⟩
  · rintro ⟨⟨e, he, hs⟩, _⟩
    exact ⟨e, he, hs⟩

theorem localRemoteIds_fold_add (x : String) :
    ∀ (l : List NameEntry) (s : LocalStore),
      x ∈ localRemoteIds s → x ∈ localRemoteIds (l.foldl LocalStore.addRecord s) := by
  intro l
  induction l with
  | nil => intro s h; simpa using h
  | cons e t ih =>
    intro s h
    refine ih _ ?_
    rw [mem_localRemoteIds] at h ⊢
    obtain ⟨⟨r, hr, hs⟩, hne⟩ := h
    exact ⟨⟨r, by simp [LocalStore.addRecord, hr], hs⟩, hne⟩

theorem countRemote_merge (s : LocalStore) (remotes : List RemoteRecord) (rid : String) :
    countRemote (mergeRemoteRecords s remotes) rid =
      countRemote s rid +
        (remotes.filter fun r => !((localRemoteIds s).contains r.id)).countP
          (fun r => r.id == rid) := by
  rw [mergeRemoteRecords, countRemote_fold_add, List.countP_map]
  congr 1

theorem mem_localRemoteIds_merge (s : LocalStore) (remotes : List RemoteRecord)
    (r : RemoteRecord) (hr : r ∈ remotes) (hne : r.id ≠ "") :
    r.id ∈ localRemoteIds (mergeRemoteRecords s remotes) := by
  by_cases hpres : r.id ∈ localRemoteIds s
  · rw [mergeRemoteRecords]
    exact localRemoteIds_fold_add _ _ _ hpres
  · rw [← countRemote_pos_iff _ _ hne, countRemote_merge]
    have hfilter : r ∈ remotes.filter fun q => !((localRemoteIds s).contains q.id) := by
      rw [List.mem_filter]
      exact ⟨hr, by simp [List.contains, hpres]⟩
    have : 0 < (remotes.filter fun q => !((localRemoteIds s).contains q.id)).countP
        (fun q => q.id == r.id) := by
      exact List.countP_pos_iff.mpr ⟨r, hfilter, by simp⟩
    omega

theorem countP_beq_le_one_of_nodup :
    ∀ (l : List String), l.Nodup → ∀ (a : String), l.countP (· == a) ≤ 1 := by
  intro l
  induction l with
  | nil => intro _ a; simp
  | cons x t ih =>
    intro hnd a
    rw [List.countP_cons]
    rcases List.nodup_cons.mp hnd with ⟨hx, ht⟩
    by_cases hxa : x = a
    · subst hxa
      have : t.countP (· == x) = 0 := by
        rw [List.countP_eq_zero]
        intro b hb hba
        exact hx (by simpa using (eq_of_beq hba) ▸ hb)
      simp [this]
    · have : (x == a) = false := by simpa using hxa
      rw [this]
      simpa using ih ht a

theorem merge_second_time_noop (s : LocalStore) (remotes : List RemoteRecord)
    (hne : ∀ r ∈ remotes, r.id ≠ "") :
    mergeRemoteRecords (mergeRemoteRecords s remotes) remotes =
      mergeRemoteRecords s remotes := by
  have hfilter : (remotes.filter fun r =>
      !((localRemoteIds (mergeRemoteRecords s remotes)).contains r.id)) = [] := by
    rw [List.filter_eq_nil_iff]
    intro r hr
    have hmem := mem_localRemoteIds_merge s remotes r hr (hne r hr)
    simp [List.contains, hmem]
  conv_lhs => rw [mergeRemoteRecords]
  rw [hfilter]
  simp

/-- Claim C3 (idempotent merge): for every remote snapshot (distinct, non-empty
uuid identifiers, as the primary key guarantees) and every remote record `R`
in it, if the local store satisfies the uniqueness invariant at `R.id`
(at most one local record holds it), then after running the pull-and-merge of
`fetchAndMergeRemoteRecords` twice consecutively on the same snapshot the
local store holds at most one record with `supabaseId = R.id`; moreover the
second merge adds nothing at all. -/
theorem merge_idempotent (s : LocalStore) (remotes : List RemoteRecord)
    (R : RemoteRecord) (hR : R ∈ remotes) (hne : ∀ r ∈ remotes, r.id ≠ "")
    (hnodup : (remotes.map RemoteRecord.id).Nodup)
    (hinv : countRemote s R.id ≤ 1) :
    countRemote (mergeRemoteRecords (mergeRemoteRecords s remotes) remotes) R.id ≤ 1 ∧
      mergeRemoteRecords (mergeRemoteRecords s remotes) remotes =
        mergeRemoteRecords s remotes := by
  have hsecond := merge_second_time_noop s remotes hne
  refine ⟨?_, hsecond⟩
  rw [hsecond, countRemote_merge]
  by_cases hpres : R.id ∈ localRemoteIds s
  · have hzero : (remotes.filter fun r => !((localRemoteIds s).contains r.id)).countP
        (fun r => r.id == R.id) = 0 := by
      rw [List.countP_eq_zero]
      intro r hr hbeq
      have hrid : r.id = R.id := eq_of_beq hbeq
      rcases List.mem_filter.mp hr with ⟨_, hnc⟩
      rw [hrid] at hnc
      simp [List.contains, hpres] at hnc
    omega
  · have hzero : countRemote s R.id = 0 := by
      by_contra hpos
      exact hpres ((countRemote_pos_iff s R.id (hne R hR)).mp (Nat.pos_of_ne_zero hpos))
    have hle : (remotes.filter fun r => !((localRemoteIds s).contains r.id)).countP
        (fun r => r.id == R.id) ≤ remotes.countP (fun r => r.id == R.id) :=
      List.Sublist.countP_le _ (List.filter_sublist remotes)
    have hmap : remotes.countP (fun r => r.id == R.id) =
        (remotes.map RemoteRecord.id).countP (· == R.id) := by
      rw [List.countP_map]
      rfl
    have hone := countP_beq_le_one_of_nodup _ hnodup R.id
    omega

/-- Witness for C3 at a concrete snapshot and an empty store. -/
theorem merge_idempotent_witness :
    countRemote (mergeRemoteRecords (mergeRemoteRecords ⟨1, []⟩
        [⟨("r1"), ['a'], some ("en"), none, none, none, 0⟩])
        [⟨("r1"), ['a'], some ("en"), none, none, none, 0⟩]) ("r1") ≤ 1 ∧
      mergeRemoteRecords (mergeRemoteRecords ⟨1, []⟩
        [⟨("r1"), ['a'], some ("en"), none, none, none, 0⟩])
        [⟨("r1"), ['a'], some ("en"), none, none, none, 0⟩] =
      mergeRemoteRecords ⟨1, []⟩ [⟨("r1"), ['a'], some ("en"), none, none, none, 0⟩] :=
  merge_idempotent ⟨1, []⟩ [⟨("r1"), ['a'], some ("en"), none, none, none, 0⟩]
    ⟨("r1"), ['a'], some ("en"), none, none, none, 0⟩
    (by decide) (by decide) (by decide) (by decide)

/-! ### Deletion behaviour (claims C1 and C2) -/

/-- Claim C1, evaluated on the code: the claim is FALSE of the shipped
`deleteRecord` / `fetchAndMergeRemoteRecords` pair. Starting from a store
holding one synced record with remote identifier `r1`, the user delete purges
it outright (second conjunct), and the next pull-and-merge of a snapshot that
still contains remote id `r1` re-creates the record locally (first
conjunct) — the delete-dominance rule of the spec is not implemented (no
tombstone exists, and `deleteById` is never called anywhere in the source). -/
theorem delete_then_pull_resurrects :
    countRemote (mergeRemoteRecords
      (deleteRecord ⟨2, [⟨some 1, some ("r1"), ['a'], some ("en"), none, 0, true⟩]⟩ 1)
      [⟨("r1"), ['a'], some ("en"), none, none, none, 0⟩]) ("r1") = 1 ∧
    countRemote
      (deleteRecord ⟨2, [⟨some 1, some ("r1"), ['a'], some ("en"), none, 0, true⟩]⟩ 1)
      ("r1") = 0 := by
  decide

/-- Claim C2, evaluated on the code: `deleteRecord` applied to a record with
`remoteId` set and `synced = true` leaves NO trace in the local store — the
record is physically removed at once rather than rewritten as a tombstone,
so nothing is retained until a remote `deleteById` succeeds (no such call
exists in the source). -/
theorem delete_purges_synced_record :
    (deleteRecord ⟨2, [⟨some 1, some ("r1"), ['a'], some ("en"), none, 0, true⟩]⟩ 1).records
      = [] := by
  decide

/-! ### Location handling during merge (claim C9) -/

/-- Claim C9: in the remote-to-local conversion of `fetchAndMergeRemoteRecords`,
a remote record whose latitude or longitude is absent (or null) or
numerically zero yields a local record with no location at all, and when the
location is kept a missing accuracy defaults to 0. -/
theorem merge_location_policy (r : RemoteRecord) :
    ((r.latitude = none ∨ r.latitude = some 0 ∨
      r.longitude = none ∨ r.longitude = some 0) →
      (remoteToLocal r).location = none) ∧
    (∀ loc : Location, r.location_accuracy = none →
      (remoteToLocal r).location = some loc → loc.accuracy = 0) := by
  constructor
  · intro h
    have hfalse : (jsTruthyNum r.latitude && jsTruthyNum r.longitude) = false := by
      rcases h with h | h | h | h <;> simp [h, jsTruthyNum]
    simp [remoteToLocal, hfalse]
  · intro loc hacc hloc
    by_cases hcond : (jsTruthyNum r.latitude && jsTruthyNum r.longitude) = true
    · simp only [remoteToLocal, hcond, if_true] at hloc
      have := Option.some.inj hloc
      rw [← this, hacc]
      rfl
    · rw [Bool.not_eq_true] at hcond
      simp [remoteToLocal, hcond] at hloc

/-- Witness for C9: a zero latitude drops the location, and a kept location
with missing accuracy carries accuracy 0. -/
theorem merge_location_policy_witness :
    (remoteToLocal ⟨("ra"), ['a'], none, some 0, some 2, some 5, 0⟩).location = none ∧
      (⟨1, 2, 0⟩ : Location).accuracy = 0 :=
  ⟨(merge_location_policy ⟨("ra"), ['a'], none, some 0, some 2, some 5, 0⟩).1
      (Or.inr (Or.inl rfl)),
    (merge_location_policy ⟨("rb"), ['a'], none, some 1, some 2, none, 0⟩).2
      ⟨1, 2, 0⟩ rfl (by decide)⟩

/-! ### Lemmas about the push path (`syncSingleRecord` / `syncPendingData`) -/

theorem mem_putRecord_self (l : List NameEntry) (u : NameEntry) :
    u ∈ putRecord l u := by
  rw [putRecord]
  by_cases h : l.any (fun r => r.id == u.id)
  · rw [if_pos h]
    obtain ⟨x, hx, hbeq⟩ := List.any_eq_true.mp h
    exact List.mem_map.mpr ⟨x, hx, by rw [if_pos hbeq]⟩
  · rw [if_neg h]
    exact List.mem_append_right _ (List.mem_singleton_self u)

theorem mem_putRecord_of_ne (l : List NameEntry) (u v : NameEntry)
    (hv : v ∈ l) (hne : v.id ≠ u.id) : v ∈ putRecord l u := by
  rw [putRecord]
  by_cases h : l.any (fun r => r.id == u.id)
  · rw [if_pos h]
    refine List.mem_map.mpr ⟨v, hv, ?_⟩
    rw [if_neg (by simpa using hne)]
  · rw [if_neg h]
    exact List.mem_append_left _ hv

theorem sync_eq_guard (env : SyncEnv) (st : AppState) (r : NameEntry)
    (h : env.online = false ∨ r.synced = true) : syncSingleRecord env st r = st := by
  rcases h with h | h <;> simp [syncSingleRecord, h]

theorem sync_eq_fail (env : SyncEnv) (st : AppState) (r : NameEntry)
    (ho : env.online = true) (hs : r.synced = false) (hins : env.insert r = none) :
    syncSingleRecord env st r = { st with remoteInserts := st.remoteInserts ++ [r] } := by
  simp [syncSingleRecord, ho, hs, hins]

theorem sync_eq_untruthy (env : SyncEnv) (st : AppState) (r : NameEntry) (rid : String)
    (ho : env.online = true) (hs : r.synced = false) (hins : env.insert r = some rid)
    (hid : jsTruthyId r.id = false) :
    syncSingleRecord env st r = { st with remoteInserts := st.remoteInserts ++ [r] } := by
  simp [syncSingleRecord, ho, hs, hins, hid]

theorem sync_eq_success (env : SyncEnv) (st : AppState) (r : NameEntry) (rid : String)
    (ho : env.online = true) (hs : r.synced = false) (hins : env.insert r = some rid)
    (hid : jsTruthyId r.id = true) :
    syncSingleRecord env st r =
      { st with
        store := { st.store with
          records := putRecord st.store.records
            { r with synced := true, supabaseId := some rid } }
        names := st.names.map fun item =>
          if item.id == r.id then { r with synced := true, supabaseId := some rid }
          else item
        remoteInserts := st.remoteInserts ++ [r] } := by
  simp [syncSingleRecord, ho, hs, hins, hid]

theorem mem_store_syncSingle (env : SyncEnv) (st : AppState) (r v : NameEntry)
    (hv : v ∈ st.store.records) (hcond : r.id ≠ v.id ∨ env.insert r = none) :
    v ∈ (syncSingleRecord env st r).store.records := by
  cases ho : env.online with
  | false => rw [sync_eq_guard env st r (Or.inl ho)]; exact hv
  | true =>
    cases hs : r.synced with
    | true => rw [sync_eq_guard env st r (Or.inr hs)]; exact hv
    | false =>
      cases hins : env.insert r with
      | none => rw [sync_eq_fail env st r ho hs hins]; exact hv
      | some rid =>
        cases hid : jsTruthyId r.id with
        | false => rw [sync_eq_untruthy env st r rid ho hs hins hid]; exact hv
        | true =>
          rw [sync_eq_success env st r rid ho hs hins hid]
          refine mem_putRecord_of_ne _ _ _ hv ?_
          rcases hcond with hid2 | hins2
          · exact fun he => hid2 he.symm
          · rw [hins] at hins2; exact absurd hins2 (by simp)

theorem mem_store_syncFold (env : SyncEnv) :
    ∀ (pending : List NameEntry) (st : AppState) (v : NameEntry),
      v ∈ st.store.records →
      (∀ r ∈ pending, r.id ≠ v.id ∨ env.insert r = none) →
      v ∈ ((pending.foldl (syncSingleRecord env) st).store.records) := by
  intro pending
  induction pending with
  | nil => intro st v hv _; simpa using hv
  | cons r0 rest ih =>
    intro st v hv hcond
    rw [List.foldl_cons]
    refine ih _ v ?_ ?_
    · exact mem_store_syncSingle env st r0 v hv (hcond r0 (List.mem_cons_self r0 rest))
    · intro r hr
      exact hcond r (List.mem_cons_of_mem _ hr)

theorem inserts_grow_syncSingle (env : SyncEnv) (st : AppState) (r x : NameEntry)
    (hx : x ∈ st.remoteInserts) : x ∈ (syncSingleRecord env st r).remoteInserts := by
  cases ho : env.online with
  | false => rw [sync_eq_guard env st r (Or.inl ho)]; exact hx
  | true =>
    cases hs : r.synced with
    | true => rw [sync_eq_guard env st r (Or.inr hs)]; exact hx
    | false =>
      cases hins : env.insert r with
      | none => rw [sync_eq_fail env st r ho hs hins]; exact List.mem_append_left _ hx
      | some rid =>
        cases hid : jsTruthyId r.id with
        | false =>
          rw [sync_eq_untruthy env st r rid ho hs hins hid]
          exact List.mem_append_left _ hx
        | true =>
          rw [sync_eq_success env st r rid ho hs hins hid]
          exact List.mem_append_left _ hx

theorem inserts_grow_syncFold (env : SyncEnv) :
    ∀ (pending : List NameEntry) (st : AppState) (x : NameEntry),
      x ∈ st.remoteInserts →
      x ∈ ((pending.foldl (syncSingleRecord env) st).remoteInserts) := by
  intro pending
  induction pending with
  | nil => intro st x hx; simpa using hx
  | cons r0 rest ih =>
    intro st x hx
    rw [List.foldl_cons]
    exact ih _ x (inserts_grow_syncSingle env st r0 x hx)

theorem attempted_syncSingle (env : SyncEnv) (st : AppState) (r : NameEntry)
    (honline : env.online = true) (hsync : r.synced = false) :
    r ∈ (syncSingleRecord env st r).remoteInserts := by
  cases hins : env.insert r with
  | none =>
    rw [sync_eq_fail env st r honline hsync hins]
    exact List.mem_append_right _ (List.mem_singleton_self r)
  | some rid =>
    cases hid : jsTruthyId r.id with
    | false =>
      rw [sync_eq_untruthy env st r rid honline hsync hins hid]
      exact List.mem_append_right _ (List.mem_singleton_self r)
    | true =>
      rw [sync_eq_success env st r rid honline hsync hins hid]
      exact List.mem_append_right _ (List.mem_singleton_self r)

theorem attempted_syncFold (env : SyncEnv) (honline : env.online = true) :
    ∀ (pending : List NameEntry) (st : AppState),
      (∀ r ∈ pending, r.synced = false) →
      ∀ r ∈ pending, r ∈ ((pending.foldl (syncSingleRecord env) st).remoteInserts) := by
  intro pending
  induction pending with
  | nil => intro st _ r hr; simp at hr
  | cons r0 rest ih =>
    intro st hsync r hr
    rw [List.foldl_cons]
    rcases List.mem_cons.mp hr with h | h
    · subst h
      refine inserts_grow_syncFold env rest _ r ?_
      exact attempted_syncSingle env st r honline (hsync r hr)
    · exact ih _ (fun q hq => hsync q (List.mem_cons_of_mem _ hq)) r h

theorem syncFold_success (env : SyncEnv) (honline : env.online = true) :
    ∀ (pending : List NameEntry) (st : AppState),
      (∀ r ∈ pending, r.synced = false) →
      (∀ r ∈ pending, jsTruthyId r.id = true) →
      (pending.map NameEntry.id).Nodup →
      ∀ r ∈ pending, ∀ rid, env.insert r = some rid →
        ({ r with synced := true, supabaseId := some rid } : NameEntry) ∈
          ((pending.foldl (syncSingleRecord env) st).store.records) := by
  intro pending
  induction pending with
  | nil => intro st _ _ _ r hr; simp at hr
  | cons r0 rest ih =>
    intro st hsync htruthy hnodup r hr rid hins
    rw [List.foldl_cons]
    rcases List.mem_cons.mp hr with h | h
    · subst h
      have hstep : ({ r with synced := true, supabaseId := some rid } : NameEntry) ∈
          (syncSingleRecord env st r).store.records := by
        rw [sync_eq_success env st r rid honline (hsync r hr) hins (htruthy r hr)]
        exact mem_putRecord_self _ _
      have hnodup2 : (r.id :: rest.map NameEntry.id).Nodup := by
        rw [List.map_cons] at hnodup; exact hnodup
      have hnotin : r.id ∉ rest.map NameEntry.id := (List.nodup_cons.mp hnodup2).1
      refine mem_store_syncFold env rest _ _ hstep ?_
      intro q hq
      left
      intro hqid
      have hq2 : q.id = r.id := hqid
      exact hnotin (hq2 ▸ List.mem_map_of_mem NameEntry.id hq)
    · have hnodup2 : (r0.id :: rest.map NameEntry.id).Nodup := by
        rw [List.map_cons] at hnodup; exact hnodup
      refine ih _ (fun q hq => hsync q (List.mem_cons_of_mem _ hq))
        (fun q hq => htruthy q (List.mem_cons_of_mem _ hq))
        ((List.nodup_cons.mp hnodup2).2) r h rid hins

theorem syncPendingData_eq_run (env : SyncEnv) (st : AppState)
    (ho : env.online = true) (hidle : st.isSyncing = false) :
    syncPendingData env st =
      { ((st.store.records.filter fun r => !r.synced).foldl (syncSingleRecord env)
          { st with isSyncing := true }) with isSyncing := false } := by
  simp [syncPendingData, ho, hidle]

/-- Claim C4 (offline-to-online convergence): for records created while
offline (`synced = false`; their auto-increment keys are set and nonzero, and
keys are unique, as IndexedDB guarantees), if the engine is online and idle
and every remote insert succeeds with a (uuid) identifier, then after one
`syncPendingData` run each such record sits in the local store with
`synced = true` and its non-empty `supabaseId`. -/
theorem syncPendingData_converges (env : SyncEnv) (st : AppState)
    (honline : env.online = true) (hidle : st.isSyncing = false)
    (htruthy : ∀ r ∈ st.store.records, r.synced = false → jsTruthyId r.id = true)
    (hins : ∀ r ∈ st.store.records, r.synced = false →
      ∃ rid, env.insert r = some rid ∧ rid ≠ "")
    (hnodup : (st.store.records.map NameEntry.id).Nodup) :
    ∀ r ∈ st.store.records, r.synced = false →
      ∃ rid, env.insert r = some rid ∧ rid ≠ "" ∧
        ({ r with synced := true, supabaseId := some rid } : NameEntry) ∈
          (syncPendingData env st).store.records := by
  intro r hr hs
  obtain ⟨rid, hrid, hne⟩ := hins r hr hs
  refine ⟨rid, hrid, hne, ?_⟩
  rw [syncPendingData_eq_run env st honline hidle]
  have hmem : r ∈ (st.store.records.filter fun q => !q.synced) :=
    List.mem_filter.mpr ⟨hr, by simp [hs]⟩
  have hsub : List.Sublist
      ((st.store.records.filter fun q => !q.synced).map NameEntry.id)
      (st.store.records.map NameEntry.id) :=
    (List.filter_sublist _).map _
  have hres := syncFold_success env honline
    (st.store.records.filter fun q => !q.synced)
    { st with isSyncing := true }
    (fun q hq => by simpa using (List.mem_filter.mp hq).2)
    (fun q hq => htruthy q (List.mem_filter.mp hq).1
      (by simpa using (List.mem_filter.mp hq).2))
    (hnodup.sublist hsub) r hmem rid hrid
  simpa using hres

/-- Witness for C4: one record created offline, a succeeding insert
environment, one run of the cycle. -/
theorem syncPendingData_converges_witness :
    ({ id := some 1, supabaseId := some ("u1"), name := ['a'],
       language := some ("en"), location := none, timestamp := 0,
       synced := true } : NameEntry) ∈
      (syncPendingData ⟨true, fun _ => some ("u1")⟩
        ⟨⟨2, [⟨some 1, none, ['a'], some ("en"), none, 0, false⟩]⟩,
         [⟨some 1, none, ['a'], some ("en"), none, 0, false⟩], false, []⟩).store.records := by
  obtain ⟨rid, hrid, hne, hmem⟩ :=
    syncPendingData_converges ⟨true, fun _ => some ("u1")⟩
      ⟨⟨2, [⟨some 1, none, ['a'], some ("en"), none, 0, false⟩]⟩,
       [⟨some 1, none, ['a'], some ("en"), none, 0, false⟩], false, []⟩
      rfl rfl (by decide)
      (fun r hr hs => ⟨("u1"), rfl, by decide⟩)
      (by decide)
      ⟨some 1, none, ['a'], some ("en"), none, 0, false⟩ (by decide) rfl
  have hr : rid = "u1" := (Option.some.inj hrid).symm
  rw [hr] at hmem
  exact hmem

theorem migrate_attempts (f : List SupabaseRecord → Bool) :
    ∀ (batches : List (List SupabaseRecord)) (acc : Nat × List (List SupabaseRecord)),
      (batches.foldl
        (fun a b => (if f b then a.1 + b.length else a.1, a.2 ++ [b])) acc).2 =
        acc.2 ++ batches := by
  intro batches
  induction batches with
  | nil => intro acc; simp
  | cons b t ih => intro acc; rw [List.foldl_cons, ih]; simp

/-- Claim C6 (per-item failure isolation): the chunked bulk insert of
`migrateLocalRecords` attempts every batch of 50 in order whatever the
per-batch outcomes are (the attempted-batch list does not depend on the
outcome function at all), and during `syncPendingData` every unsynced record
is offered to the remote regardless of the failures of its siblings, while a
record whose own insert fails is left unchanged in the local store for a
later retry. -/
theorem failure_isolation (f g : List SupabaseRecord → Bool) (l : List NameEntry)
    (env : SyncEnv) (st : AppState)
    (honline : env.online = true) (hidle : st.isSyncing = false)
    (hnodup : (st.store.records.map NameEntry.id).Nodup) :
    (migrateLocalRecords f l).2 = chunksOf 50 (l.map toSupabase) ∧
    (migrateLocalRecords f l).2 = (migrateLocalRecords g l).2 ∧
    (∀ r ∈ st.store.records, r.synced = false →
      r ∈ (syncPendingData env st).remoteInserts) ∧
    (∀ r ∈ st.store.records, r.synced = false → env.insert r = none →
      r ∈ (syncPendingData env st).store.records) := by
  have h1 : (migrateLocalRecords f l).2 = chunksOf 50 (l.map toSupabase) := by
    rw [migrateLocalRecords, migrate_attempts]
    simp
  have h1g : (migrateLocalRecords g l).2 = chunksOf 50 (l.map toSupabase) := by
    rw [migrateLocalRecords, migrate_attempts]
    simp
  refine ⟨h1, h1.trans h1g.symm, ?_, ?_⟩
  · intro r hr hs
    rw [syncPendingData_eq_run env st honline hidle]
    have hmem : r ∈ (st.store.records.filter fun q => !q.synced) :=
      List.mem_filter.mpr ⟨hr, by simp [hs]⟩
    have hres := attempted_syncFold env honline
      (st.store.records.filter fun q => !q.synced)
      { st with isSyncing := true }
      (fun q hq => by simpa using (List.mem_filter.mp hq).2) r hmem
    simpa using hres
  · intro r hr hs hfail
    rw [syncPendingData_eq_run env st honline hidle]
    have hres := mem_store_syncFold env
      (st.store.records.filter fun q => !q.synced)
      { st with isSyncing := true } r hr ?_
    · simpa using hres
    · intro q hq
      by_cases hqr : q = r
      · subst hqr; right; exact hfail
      · left
        intro heq
        exact hqr (List.inj_on_of_nodup_map hnodup (List.mem_filter.mp hq).1 hr heq)

/-- Witness for C6: one failing batch is still attempted, and a record whose
insert fails is still attempted and still present afterwards. -/
theorem failure_isolation_witness :
    (migrateLocalRecords (fun _x => false)
      [⟨some 1, none, ['a'], some ("en"), none, 0, false⟩]).2 =
      chunksOf 50 ([⟨some 1, none, ['a'], some ("en"), none, 0, false⟩].map toSupabase) ∧
    (⟨some 1, none, ['a'], some ("en"), none, 0, false⟩ : NameEntry) ∈
      (syncPendingData ⟨true, fun _ => none⟩
        ⟨⟨2, [⟨some 1, none, ['a'], some ("en"), none, 0, false⟩]⟩,
         [⟨some 1, none, ['a'], some ("en"), none, 0, false⟩], false, []⟩).remoteInserts ∧
    (⟨some 1, none, ['a'], some ("en"), none, 0, false⟩ : NameEntry) ∈
      (syncPendingData ⟨true, fun _ => none⟩
        ⟨⟨2, [⟨some 1, none, ['a'], some ("en"), none, 0, false⟩]⟩,
         [⟨some 1, none, ['a'], some ("en"), none, 0, false⟩], false, []⟩).store.records := by
  obtain ⟨h1, h2, h3, h4⟩ :=
    failure_isolation (fun _x => false) (fun _x => true)
      [⟨some 1, none, ['a'], some ("en"), none, 0, false⟩]
      ⟨true, fun _ => none⟩
      ⟨⟨2, [⟨some 1, none, ['a'], some ("en"), none, 0, false⟩]⟩,
       [⟨some 1, none, ['a'], some ("en"), none, 0, false⟩], false, []⟩
      rfl rfl (by decide)
  exact ⟨h1,
    h3 ⟨some 1, none, ['a'], some ("en"), none, 0, false⟩ (by decide) rfl,
    h4 ⟨some 1, none, ['a'], some ("en"), none, 0, false⟩ (by decide) rfl rfl⟩

/-- Claim C8 (single in-flight cycle): when the `isSyncing` guard is set, a
second trigger of `syncPendingData` is a complete no-op — it returns the
state unchanged (same local store, same view, same issued remote inserts) and
the model state carries no queue that could replay it later. -/
theorem syncPendingData_busy_noop (env : SyncEnv) (st : AppState)
    (h : st.isSyncing = true) : syncPendingData env st = st := by
  simp [syncPendingData, h]

/-- Witness for C8 at a concrete busy state. -/
theorem syncPendingData_busy_noop_witness :
    syncPendingData ⟨true, fun _ => none⟩ ⟨⟨1, []⟩, [], true, []⟩ =
      ⟨⟨1, []⟩, [], true, []⟩ :=
  syncPendingData_busy_noop ⟨true, fun _ => none⟩ ⟨⟨1, []⟩, [], true, []⟩ rfl

/-- Claim C10 (idempotent push): `syncSingleRecord` on a record whose
`synced` flag is already true returns the state unchanged — in particular no
remote insert is issued (the issued-insert list is untouched), and the local
store and in-memory view are exactly as before. -/
theorem syncSingleRecord_synced_noop (env : SyncEnv) (st : AppState)
    (r : NameEntry) (h : r.synced = true) : syncSingleRecord env st r = st :=
  sync_eq_guard env st r (Or.inr h)

/-- Witness for C10 at a concrete synced record. -/
theorem syncSingleRecord_synced_noop_witness :
    syncSingleRecord ⟨true, fun _ => some ("u")⟩ ⟨⟨1, []⟩, [], false, []⟩
      ⟨some 1, some ("s1"), ['a'], some ("en"), none, 0, true⟩ =
      ⟨⟨1, []⟩, [], false, []⟩ :=
  syncSingleRecord_synced_noop ⟨true, fun _ => some ("u")⟩ ⟨⟨1, []⟩, [], false, []⟩
    ⟨some 1, some ("s1"), ['a'], some ("en"), none, 0, true⟩ rfl

/-- Claim C5 (language detection): the record `addName` creates carries
language `hi` exactly when the trimmed name contains a code point in the
Devanagari block (U+0900 to U+097F), carries `en` otherwise, and the
classification is a pure function of the inputs (equal inputs give equal
records). -/
theorem addName_language_detection (n : List Char) (loc : Option Location) (t : Int) :
    ((addNameEntry n loc t).language = some ("hi") ↔
      ∃ c ∈ jsTrim n, 0x900 ≤ c.toNat ∧ c.toNat ≤ 0x97F) ∧
    ((¬∃ c ∈ jsTrim n, 0x900 ≤ c.toNat ∧ c.toNat ≤ 0x97F) →
      (addNameEntry n loc t).language = some ("en")) ∧
    (∀ n2 loc2 t2, n = n2 → loc = loc2 → t = t2 →
      addNameEntry n loc t = addNameEntry n2 loc2 t2) := by
  have hkey : (jsTrim n).any isDevanagari = true ↔
      ∃ c ∈ jsTrim n, 0x900 ≤ c.toNat ∧ c.toNat ≤ 0x97F := by
    rw [List.any_eq_true]
    constructor
    · rintro ⟨c, hc, hp⟩
      refine ⟨c, hc, ?_⟩
      simpa [isDevanagari] using hp
    · rintro ⟨c, hc, hp⟩
      refine ⟨c, hc, ?_⟩
      simpa [isDevanagari] using hp
  refine ⟨?_, ?_, ?_⟩
  · by_cases h : (jsTrim n).any isDevanagari = true
    · constructor
      · intro _; exact hkey.mp h
      · intro _; simp [addNameEntry, detectLanguage, h]
    · constructor
      · intro hcontra
        exact absurd hcontra (by simp [addNameEntry, detectLanguage, h])
      · intro hex
        exact absurd (hkey.mpr hex) h
  · intro hnex
    have h : (jsTrim n).any isDevanagari = false :=
      Bool.not_eq_true _ ▸ (fun hh => hnex (hkey.mp hh))
    simp [addNameEntry, detectLanguage, h]
  · intro n2 loc2 t2 h1 h2 h3
    subst h1; subst h2; subst h3
    rfl

/-- Witness for C5 on the Devanagari name from the spec example. -/
theorem addName_language_detection_witness :
    (addNameEntry ['र'] none 0).language = some ("hi") :=
  (addName_language_detection ['र'] none 0).1.mpr ⟨'र', by decide, by decide, by decide⟩

/-- Claim C7 (cache-first correctness): an intercepted GET request (not of
the chrome-extension scheme) whose path matches a critical resource and whose
cached copy exists is answered by the service worker with exactly the cached
bytes, and the handler issues no network fetch at all. -/
theorem cacheFirst_served_from_cache (env : FetchEnv) (req : SWRequest) (body : String)
    (hget : req.methodGET = true) (hproto : req.protocol ≠ "chrome-extension:")
    (hcrit : isCritical req.path = true) (hcache : env.cache req.path = some body) :
    onFetch env req = some (SWResponse.body body, []) := by
  have hp : (req.protocol == "chrome-extension:") = false := by
    simpa using hproto
  simp [onFetch, handleFetch, cacheFirst, hget, hp, hcrit, hcache]

/-- Witness for C7: a cached critical resource served with no fetch. -/
theorem cacheFirst_served_from_cache_witness :
    onFetch
      ⟨fun q => if q = "/index.html" then some ("shellbytes") else none,
       fun _ => none⟩
      ⟨("/index.html"), true, ("https:"), false⟩ =
      some (SWResponse.body ("shellbytes"), []) :=
  cacheFirst_served_from_cache
    ⟨fun q => if q = "/index.html" then some ("shellbytes") else none,
     fun _ => none⟩
    ⟨("/index.html"), true, ("https:"), false⟩ ("shellbytes")
    rfl (by decide) (by decide) (by decide)

end PWA
